import Mathlib

/-!
Verification of the Fusion v11.2/v12.0 learning-ledger and agent-chain code
(`memory_registry.py`, `agent_chain.py`, `evaluator_metrics.py`).

Python dictionaries are modelled as insertion-ordered association lists
(`Dict α` below): assignment `d[k] = v` keeps the position of an existing key
and appends a fresh key at the end, exactly as CPython dicts do, and
iteration (`.items()`, `.values()`) follows that order.  Python floats are
modelled as exact rationals `ℚ`.  File persistence (`_save_memory`,
`_load_memory`), the `last_updated` timestamp and the unused
`pattern_performance` field of the stored JSON are not modelled: no claim
mentions them and they do not influence the in-memory state transitions.
-/

namespace Fusion

/-- Association list standing for a Python dict (insertion order preserved). -/
abbrev Dict (α : Type) := List (String × α)

/-- Python `d.get(k)` / `k in d`: the value at the first (only) occurrence of `k`. -/
def dictGet {α : Type} : Dict α → String → Option α
  | [], _ => none
  | (k', v) :: rest, k => if k' = k then some v else dictGet rest k

/-- Python `d[k] = v`: overwrite in place when the key exists, append otherwise. -/
def dictSet {α : Type} : Dict α → String → α → Dict α
  | [], k, v => [(k, v)]
  | (k', v') :: rest, k, v =>
    if k' = k then (k, v) :: rest else (k', v') :: dictSet rest k v

/-- Python `{**a, **b}`: entries of `b` written over `a` in order. -/
def dictMerge {α : Type} (a b : Dict α) : Dict α :=
  b.foldl (fun acc kv => dictSet acc kv.1 kv.2) a

theorem dictGet_dictSet_self {α : Type} (d : Dict α) (k : String) (v : α) :
    dictGet (dictSet d k v) k = some v := by
  induction d with
  | nil => simp [dictGet, dictSet]
  | cons hd tl ih =>
    obtain ⟨k', v'⟩ := hd
    by_cases h : k' = k
    · simp [dictGet, dictSet, h]
    · simp [dictGet, dictSet, h, ih]

theorem dictGet_dictSet_ne {α : Type} (d : Dict α) {k m : String} (v : α)
    (h : k ≠ m) : dictGet (dictSet d k v) m = dictGet d m := by
  induction d with
  | nil => simp [dictGet, dictSet, h]
  | cons hd tl ih =>
    obtain ⟨k', v'⟩ := hd
    by_cases hk : k' = k
    · subst hk
      simp [dictGet, dictSet, h]
    · simp only [dictSet, if_neg hk]
      by_cases hm : k' = m
      · simp [dictGet, hm]
      · simp [dictGet, hm, ih]

/-- Per-(agent, pattern) statistics kept by the Learning Ledger
(`memory_registry.py`, the entries of `memory["agent_patterns"]`). -/
structure PatternStats where
  uses : Nat
  success_rate : ℚ
  avg_metrics : Dict ℚ
deriving DecidableEq

/-- The fresh entry `{"uses": 0, "success_rate": 0.0, "avg_metrics": {}}`. -/
def initStats : PatternStats := { uses := 0, success_rate := 0, avg_metrics := [] }

/-- One step of the chain configuration (a dict with keys `agent`, `pattern`
and optional `metrics_threshold`, `AgentChain.execute`). -/
structure ChainStep where
  agent : String
  pattern : String
  metrics_threshold : Option ℚ
deriving DecidableEq

/-- One entry of `memory["chain_history"]` (`record_chain_execution`);
the timestamp is passed in rather than read from a clock. -/
structure ChainRecord where
  timestamp : String
  chain_config : List ChainStep
  metrics : Dict ℚ
  output_summary : String
deriving DecidableEq

/-- The in-memory state of `MemoryRegistry`. -/
structure Memory where
  agent_patterns : Dict (Dict PatternStats)
  chain_history : List ChainRecord
deriving DecidableEq

/-- A memory as `_ensure_storage` first writes it. -/
def emptyMemory : Memory := { agent_patterns := [], chain_history := [] }

/-- Python `success = all(v >= 0.7 for v in metrics.values())`. -/
def isSuccess (metrics : Dict ℚ) : Bool :=
  metrics.all (fun mv => (7 : ℚ)/10 ≤ mv.2)

/-- The body of the `for metric, value in metrics.items()` loop of
`record_pattern_use`, at an already incremented use count `uses1`. -/
def avgUpdate (uses1 : ℚ) (am : Dict ℚ) (mv : String × ℚ) : Dict ℚ :=
  match dictGet am mv.1 with
  | none => dictSet am mv.1 mv.2
  | some old_avg => dictSet am mv.1 ((old_avg * (uses1 - 1) + mv.2) / uses1)

/-- The update `record_pattern_use` applies to one ledger entry: `uses`
incremented, each metric folded into `avg_metrics` with the running-average
formula `(old_avg * (uses - 1) + value) / uses`, and `success_rate` updated
with the boolean "all metric values >= 0.7". -/
def stepEntry (entry0 : PatternStats) (metrics : Dict ℚ) : PatternStats :=
  let uses1 : Nat := entry0.uses + 1
  let old_successes : ℚ := entry0.success_rate * ((uses1 : ℚ) - 1)
  { uses := uses1
    success_rate := (old_successes + (if isSuccess metrics then 1 else 0)) / (uses1 : ℚ)
    avg_metrics := metrics.foldl (avgUpdate (uses1 : ℚ)) entry0.avg_metrics }

/-- `MemoryRegistry.record_pattern_use`: create the agent map and the
(agent, pattern) entry when absent, then apply `stepEntry` to it. -/
def record_pattern_use (mem : Memory) (agent pattern : String)
    (metrics : Dict ℚ) : Memory :=
  let agentMap : Dict PatternStats := (dictGet mem.agent_patterns agent).getD []
  let entry0 : PatternStats := (dictGet agentMap pattern).getD initStats
  { mem with
    agent_patterns :=
      dictSet mem.agent_patterns agent (dictSet agentMap pattern (stepEntry entry0 metrics)) }

/-- The sort key of `get_best_pattern`: `(success_rate, uses)`. -/
def statKey (s : PatternStats) : ℚ × Nat := (s.success_rate, s.uses)

/-- Strict lexicographic comparison of sort keys, as Python compares the
tuples `(success_rate, uses)`. -/
def keyLtB (a b : ℚ × Nat) : Bool :=
  decide (a.1 < b.1) || (decide (a.1 = b.1) && decide (a.2 < b.2))

/-- Stable descending insertion by `statKey`: `x` goes before the first
element with a strictly smaller key, and before equal keys only when it was
earlier in the original list (so `foldr insertByKeyDesc []` has exactly the
order of Python's stable `sorted(..., reverse=True)`). -/
def insertByKeyDesc (x : String × PatternStats) :
    List (String × PatternStats) → List (String × PatternStats)
  | [] => [x]
  | y :: rest =>
    if keyLtB (statKey x.2) (statKey y.2) then y :: insertByKeyDesc x rest
    else x :: y :: rest

/-- Python `sorted(patterns.items(), key=lambda x: (x[1]["success_rate"],
x[1]["uses"]), reverse=True)`: a stable descending sort. -/
def sortByKeyDesc (l : List (String × PatternStats)) : List (String × PatternStats) :=
  l.foldr insertByKeyDesc []

/-- `MemoryRegistry.get_best_pattern` (the unused `task_type` argument is
dropped): `None` for an unknown agent or an empty pattern map, otherwise the
first pattern of the stable descending sort. -/
def get_best_pattern (mem : Memory) (agent : String) : Option String :=
  match dictGet mem.agent_patterns agent with
  | none => none
  | some patterns =>
    if patterns = [] then none
    else
      match sortByKeyDesc patterns with
      | [] => none
      | best :: _ => some best.1

/-- The record `record_chain_execution` appends: the output is summarised to
its first 500 characters followed by `...` when longer than 500. -/
def mkChainRecord (timestamp : String) (chain_config : List ChainStep)
    (metrics : Dict ℚ) (output : String) : ChainRecord :=
  { timestamp := timestamp
    chain_config := chain_config
    metrics := metrics
    output_summary :=
      if output.length > 500 then (output.take 500) ++ "..." else output }

/-- `MemoryRegistry.record_chain_execution`: append a record, then keep only
the last 100 entries. -/
def record_chain_execution (mem : Memory) (timestamp : String)
    (chain_config : List ChainStep) (metrics : Dict ℚ) (output : String) : Memory :=
  let hist := mem.chain_history ++ [mkChainRecord timestamp chain_config metrics output]
  { mem with
    chain_history := if hist.length > 100 then hist.drop (hist.length - 100) else hist }

/-- The ledger entry stored for an (agent, pattern) key, when there is one. -/
def getEntry (mem : Memory) (agent pattern : String) : Option PatternStats :=
  dictGet ((dictGet mem.agent_patterns agent).getD []) pattern

/-- The recorded use count of an (agent, pattern) key (0 when absent). -/
def usesOf (mem : Memory) (agent pattern : String) : Nat :=
  ((getEntry mem agent pattern).getD initStats).uses

/-- A sequence of `record_pattern_use` calls for one fixed key. -/
def applyCalls (mem : Memory) (agent pattern : String)
    (calls : List (Dict ℚ)) : Memory :=
  calls.foldl (fun m c => record_pattern_use m agent pattern c) mem

/-- The entry after a sequence of calls, folded at the entry level. -/
def foldEntry (e : PatternStats) (calls : List (Dict ℚ)) : PatternStats :=
  calls.foldl stepEntry e

/-- Number of calls in which every metric value was at least 0.7. -/
def countSuccess (calls : List (Dict ℚ)) : Nat :=
  (calls.filter isSuccess).length

/-- The values recorded for metric `m` across a sequence of calls. -/
def metricVals (m : String) (calls : List (Dict ℚ)) : List ℚ :=
  calls.filterMap (fun c => dictGet c m)

theorem getEntry_record_self (mem : Memory) (a p : String) (c : Dict ℚ) :
    getEntry (record_pattern_use mem a p c) a p =
      some (stepEntry ((getEntry mem a p).getD initStats) c) := by
  simp [getEntry, record_pattern_use, dictGet_dictSet_self]

theorem getEntry_record_ne_pattern (mem : Memory) {a p p' : String} (c : Dict ℚ)
    (h : p ≠ p') : getEntry (record_pattern_use mem a p c) a p' = getEntry mem a p' := by
  simp [getEntry, record_pattern_use, dictGet_dictSet_self, dictGet_dictSet_ne _ _ h]

theorem getEntry_record_ne_agent (mem : Memory) {a a' : String} (p p' : String)
    (c : Dict ℚ) (h : a ≠ a') :
    getEntry (record_pattern_use mem a p c) a' p' = getEntry mem a' p' := by
  simp [getEntry, record_pattern_use, dictGet_dictSet_ne _ _ h]

theorem chain_history_record (mem : Memory) (a p : String) (c : Dict ℚ) :
    (record_pattern_use mem a p c).chain_history = mem.chain_history := rfl

theorem getEntry_applyCalls (a p : String) :
    ∀ (calls : List (Dict ℚ)) (mem : Memory),
      getEntry (applyCalls mem a p calls) a p =
        match calls with
        | [] => getEntry mem a p
        | _ :: _ => some (foldEntry ((getEntry mem a p).getD initStats) calls) := by
  intro calls
  induction calls with
  | nil => intro mem; rfl
  | cons c cs ih =>
    intro mem
    have step : applyCalls mem a p (c :: cs) =
        applyCalls (record_pattern_use mem a p c) a p cs := rfl
    rw [step, ih]
    cases cs with
    | nil => simp [getEntry_record_self, foldEntry]
    | cons d ds =>
      simp only [getEntry_record_self, Option.getD_some, foldEntry, List.foldl_cons]

theorem stepEntry_uses (e : PatternStats) (c : Dict ℚ) :
    (stepEntry e c).uses = e.uses + 1 := rfl

theorem foldEntry_uses (calls : List (Dict ℚ)) :
    ∀ e : PatternStats, (foldEntry e calls).uses = e.uses + calls.length := by
  induction calls with
  | nil => intro e; simp [foldEntry]
  | cons c cs ih =>
    intro e
    have : foldEntry e (c :: cs) = foldEntry (stepEntry e c) cs := rfl
    rw [this, ih, stepEntry_uses, List.length_cons]
    omega

theorem foldEntry_concat (calls : List (Dict ℚ)) (c : Dict ℚ) (e : PatternStats) :
    foldEntry e (calls ++ [c]) = stepEntry (foldEntry e calls) c := by
  simp [foldEntry]

theorem countSuccess_concat (calls : List (Dict ℚ)) (c : Dict ℚ) :
    countSuccess (calls ++ [c]) =
      countSuccess calls + (if isSuccess c then 1 else 0) := by
  simp only [countSuccess, List.filter_append, List.length_append]
  cases h : isSuccess c <;> simp [h]

theorem stepEntry_success_rate (e : PatternStats) (c : Dict ℚ) :
    (stepEntry e c).success_rate =
      (e.success_rate * (((e.uses + 1 : Nat) : ℚ) - 1) + (if isSuccess c then 1 else 0)) /
        ((e.uses + 1 : Nat) : ℚ) := rfl

theorem foldEntry_success_rate :
    ∀ calls : List (Dict ℚ), calls ≠ [] →
      (foldEntry initStats calls).success_rate =
        (countSuccess calls : ℚ) / (calls.length : ℚ) := by
  intro calls
  induction calls using List.reverseRecOn with
  | nil => intro h; exact absurd rfl h
  | append_singleton cs c ih =>
    intro _
    rw [foldEntry_concat, stepEntry_success_rate, countSuccess_concat]
    have huses : (foldEntry initStats cs).uses = cs.length := by
      simpa [initStats] using foldEntry_uses cs initStats
    rcases eq_or_ne cs [] with rfl | hcs
    · simp only [foldEntry, List.foldl_nil, initStats]
      cases h : isSuccess c <;> norm_num [countSuccess, List.filter]
    · have hn : (cs.length : ℚ) ≠ 0 := by
        have hpos : 0 < cs.length := List.length_pos.mpr hcs
        exact_mod_cast hpos.ne'
      rw [ih hcs, huses]
      have hlen : ((cs ++ [c]).length : ℚ) = (cs.length : ℚ) + 1 := by
        push_cast [List.length_append, List.length_singleton]
        ring
      rw [hlen]
      cases h : isSuccess c <;>
        · push_cast
          field_simp
          try ring

theorem avgFold_get_notMem (u : ℚ) (m : String) :
    ∀ (c : Dict ℚ) (am : Dict ℚ), (∀ kv ∈ c, kv.1 ≠ m) →
      dictGet (c.foldl (avgUpdate u) am) m = dictGet am m := by
  intro c
  induction c with
  | nil => intro am _; rfl
  | cons kv rest ih =>
    intro am h
    have hk : kv.1 ≠ m := h kv (List.mem_cons_self _ _)
    have hstep : List.foldl (avgUpdate u) am (kv :: rest) =
        List.foldl (avgUpdate u) (avgUpdate u am kv) rest := rfl
    rw [hstep, ih _ (fun x hx => h x (List.mem_cons_of_mem _ hx))]
    unfold avgUpdate
    cases dictGet am kv.1 <;> simp [dictGet_dictSet_ne _ _ hk]

theorem avgFold_get (u : ℚ) (m : String) :
    ∀ (c : Dict ℚ) (am : Dict ℚ), (c.map Prod.fst).Nodup →
      dictGet (c.foldl (avgUpdate u) am) m =
        match dictGet c m with
        | none => dictGet am m
        | some v =>
          some (match dictGet am m with
                | none => v
                | some old_avg => (old_avg * (u - 1) + v) / u) := by
  intro c
  induction c with
  | nil => intro am _; rfl
  | cons kv rest ih =>
    intro am hnd
    obtain ⟨k, v⟩ := kv
    rw [List.map_cons, List.nodup_cons] at hnd
    obtain ⟨hk_not, hnd'⟩ := hnd
    have hstep : List.foldl (avgUpdate u) am ((k, v) :: rest) =
        List.foldl (avgUpdate u) (avgUpdate u am (k, v)) rest := rfl
    by_cases hkm : k = m
    · subst hkm
      have hrest : ∀ kv ∈ rest, kv.1 ≠ k := by
        intro x hx he
        exact hk_not (List.mem_map.mpr ⟨x, hx, he⟩)
      rw [hstep, avgFold_get_notMem u k rest _ hrest]
      show dictGet (avgUpdate u am (k, v)) k = _
      unfold avgUpdate
      cases ham : dictGet am k <;> simp [dictGet, ham, dictGet_dictSet_self]
    · rw [hstep, ih _ hnd']
      have ham : dictGet (avgUpdate u am (k, v)) m = dictGet am m := by
        unfold avgUpdate
        cases dictGet am k <;> simp [dictGet_dictSet_ne _ _ hkm]
      rw [ham]
      simp [dictGet, hkm]

theorem stepEntry_avg (e : PatternStats) (c : Dict ℚ) :
    (stepEntry e c).avg_metrics =
      c.foldl (avgUpdate ((e.uses + 1 : Nat) : ℚ)) e.avg_metrics := rfl

theorem metricVals_concat (m : String) (calls : List (Dict ℚ)) (c : Dict ℚ) :
    metricVals m (calls ++ [c]) =
      metricVals m calls ++ (match dictGet c m with | none => [] | some v => [v]) := by
  simp only [metricVals, List.filterMap_append]
  cases h : dictGet c m <;> simp [h]

theorem foldEntry_avg (m : String) :
    ∀ calls : List (Dict ℚ), calls ≠ [] →
      (∀ c ∈ calls, (c.map Prod.fst).Nodup) →
      (∀ c ∈ calls, (dictGet c m).isSome) →
      dictGet (foldEntry initStats calls).avg_metrics m =
        some ((metricVals m calls).sum / (calls.length : ℚ)) := by
  intro calls
  induction calls using List.reverseRecOn with
  | nil => intro h; exact absurd rfl h
  | append_singleton cs c ih =>
    intro _ hnd hsome
    obtain ⟨v, hv⟩ := Option.isSome_iff_exists.mp
      (hsome c (List.mem_append_right _ (List.mem_singleton_self c)))
    rw [foldEntry_concat, stepEntry_avg,
      avgFold_get _ m c _ (hnd c (List.mem_append_right _ (List.mem_singleton_self c))), hv,
      metricVals_concat, hv]
    have huses : (foldEntry initStats cs).uses = cs.length := by
      simpa [initStats] using foldEntry_uses cs initStats
    rcases eq_or_ne cs [] with rfl | hcs
    · simp [foldEntry, initStats, metricVals, dictGet]
    · have hn : (cs.length : ℚ) ≠ 0 := by
        have hpos : 0 < cs.length := List.length_pos.mpr hcs
        exact_mod_cast hpos.ne'
      have hprev := ih hcs (fun x hx => hnd x (List.mem_append_left _ hx))
        (fun x hx => hsome x (List.mem_append_left _ hx))
      rw [hprev, huses]
      have hlen : ((cs ++ [c]).length : ℚ) = (cs.length : ℚ) + 1 := by
        push_cast [List.length_append, List.length_singleton]
        ring
      rw [hlen]
      simp only [List.sum_append, List.sum_cons, List.sum_nil]
      push_cast
      field_simp
      try ring

theorem getEntry_applyCalls_cons (a p : String) (c : Dict ℚ) (cs : List (Dict ℚ))
    (mem : Memory) :
    getEntry (applyCalls mem a p (c :: cs)) a p =
      some (foldEntry ((getEntry mem a p).getD initStats) (c :: cs)) :=
  getEntry_applyCalls a p (c :: cs) mem

/-- C2 (amended). For a key starting absent, N `record_pattern_use` calls give
`uses = N`; and when metric `m` is present in every one of the N calls,
`avg_metrics[m]` is the arithmetic mean of the N recorded values.  (When `m`
is missing from some calls the code divides by the global call count, so the
mean property fails: see the counterexample.) -/
theorem recordUsage_uses_and_mean (mem : Memory) (a p m : String)
    (calls : List (Dict ℚ)) (habs : getEntry mem a p = none) :
    usesOf (applyCalls mem a p calls) a p = calls.length ∧
    (calls ≠ [] → (∀ c ∈ calls, (c.map Prod.fst).Nodup) →
      (∀ c ∈ calls, (dictGet c m).isSome) →
      dictGet ((getEntry (applyCalls mem a p calls) a p).getD initStats).avg_metrics m =
        some ((metricVals m calls).sum / (calls.length : ℚ))) := by
  cases calls with
  | nil =>
    refine ⟨?_, fun hne _ _ => absurd rfl hne⟩
    rw [usesOf, getEntry_applyCalls, habs]
    rfl
  | cons c cs =>
    constructor
    · rw [usesOf, getEntry_applyCalls_cons, habs]
      simp [foldEntry_uses, initStats]
    · intro hne hnd hsome
      rw [getEntry_applyCalls_cons, habs]
      simp only [Option.getD_none, Option.getD_some]
      exact foldEntry_avg m (c :: cs) hne hnd hsome

/-- C2, counterexample to the claim as frozen: with calls recording metrics
`{m: 1}`, `{}`, `{m: 0}` for one key, the code stores `avg_metrics[m] = 2/3`
(it divides by the total use count 3), while the arithmetic mean of the
values recorded for `m` across those calls is `1/2`. -/
theorem recordUsage_mean_cex :
    dictGet
        ((getEntry (applyCalls emptyMemory "a" "p"
            [[("m", (1:ℚ))], [], [("m", (0:ℚ))]]) "a" "p").getD initStats).avg_metrics "m"
      = some (2/3) ∧
    (metricVals "m" [[("m", (1:ℚ))], [], [("m", (0:ℚ))]]).sum /
        ((metricVals "m" [[("m", (1:ℚ))], [], [("m", (0:ℚ))]]).length : ℚ) = 1/2 ∧
    (2/3 : ℚ) ≠ 1/2 := by
  refine ⟨?_, ?_, by norm_num⟩
  · rw [getEntry_applyCalls_cons]
    norm_num [emptyMemory, getEntry, dictGet, foldEntry, stepEntry, avgUpdate,
      dictSet, isSuccess, initStats]
  · norm_num [metricVals, List.filterMap_cons, dictGet]

/-- C2, witness: two calls both recording `overall` give `uses = 2` and the
exact mean for `avg_metrics["overall"]`. -/
theorem recordUsage_uses_and_mean_witness :
    usesOf (applyCalls emptyMemory "wa" "wp"
        [[("overall", (1:ℚ))], [("overall", (0:ℚ))]]) "wa" "wp" = 2 ∧
    dictGet ((getEntry (applyCalls emptyMemory "wa" "wp"
          [[("overall", (1:ℚ))], [("overall", (0:ℚ))]]) "wa" "wp").getD initStats).avg_metrics
        "overall"
      = some ((metricVals "overall" [[("overall", (1:ℚ))], [("overall", (0:ℚ))]]).sum /
          (([[("overall", (1:ℚ))], [("overall", (0:ℚ))]] : List (Dict ℚ)).length : ℚ)) := by
  obtain ⟨h1, h2⟩ := recordUsage_uses_and_mean emptyMemory "wa" "wp" "overall"
    [[("overall", (1:ℚ))], [("overall", (0:ℚ))]] rfl
  refine ⟨h1, h2 (by simp) ?_ ?_⟩
  · intro c hc
    fin_cases hc <;> simp
  · intro c hc
    fin_cases hc <;> simp [dictGet]

/-- C5: starting from an absent key, after any nonempty sequence of
`record_pattern_use` calls the entry's `success_rate` is exactly the fraction
of calls in which every recorded metric value was at least 0.7, and it lies
in [0, 1]. -/
theorem recordUsage_success_rate (mem : Memory) (a p : String)
    (calls : List (Dict ℚ)) (habs : getEntry mem a p = none) (hne : calls ≠ []) :
    ((getEntry (applyCalls mem a p calls) a p).getD initStats).success_rate =
        (countSuccess calls : ℚ) / (calls.length : ℚ) ∧
      0 ≤ ((getEntry (applyCalls mem a p calls) a p).getD initStats).success_rate ∧
      ((getEntry (applyCalls mem a p calls) a p).getD initStats).success_rate ≤ 1 := by
  cases calls with
  | nil => exact absurd rfl hne
  | cons c cs =>
    rw [getEntry_applyCalls_cons, habs]
    simp only [Option.getD_none, Option.getD_some]
    have hsr := foldEntry_success_rate (c :: cs) hne
    refine ⟨hsr, ?_, ?_⟩
    · rw [hsr]
      positivity
    · rw [hsr]
      have hcount : countSuccess (c :: cs) ≤ (c :: cs).length :=
        List.length_filter_le _ _
      have hlen : (0:ℚ) < ((c :: cs).length : ℚ) := by
        exact_mod_cast Nat.succ_pos cs.length
      rw [div_le_one hlen]
      exact_mod_cast hcount

/-- C5, witness: one successful call (`overall = 1`) and one failed call
(`overall = 0`) give `success_rate = 1/2`, inside [0, 1]. -/
theorem recordUsage_success_rate_witness :
    ((getEntry (applyCalls emptyMemory "sa" "sp"
          [[("q", (1:ℚ))], [("q", (0:ℚ))]]) "sa" "sp").getD initStats).success_rate =
        (countSuccess [[("q", (1:ℚ))], [("q", (0:ℚ))]] : ℚ) /
          (([[("q", (1:ℚ))], [("q", (0:ℚ))]] : List (Dict ℚ)).length : ℚ) ∧
      0 ≤ ((getEntry (applyCalls emptyMemory "sa" "sp"
          [[("q", (1:ℚ))], [("q", (0:ℚ))]]) "sa" "sp").getD initStats).success_rate ∧
      ((getEntry (applyCalls emptyMemory "sa" "sp"
          [[("q", (1:ℚ))], [("q", (0:ℚ))]]) "sa" "sp").getD initStats).success_rate ≤ 1 :=
  recordUsage_success_rate emptyMemory "sa" "sp"
    [[("q", (1:ℚ))], [("q", (0:ℚ))]] rfl (by simp)

theorem keyLtB_eq_true_iff (a b : ℚ × Nat) :
    keyLtB a b = true ↔ (a.1 < b.1 ∨ (a.1 = b.1 ∧ a.2 < b.2)) := by
  simp [keyLtB]

theorem keyLtB_irrefl (a : ℚ × Nat) : keyLtB a a = false := by
  simp [keyLtB]

theorem keyLtB_asymm {a b : ℚ × Nat} (h : keyLtB a b = true) : keyLtB b a = false := by
  rw [keyLtB_eq_true_iff] at h
  rw [Bool.eq_false_iff, Ne, keyLtB_eq_true_iff]
  rcases h with h | ⟨he, h2⟩
  · rintro (h' | ⟨he', _⟩)
    · linarith
    · rw [he'] at h
      exact lt_irrefl _ h
  · rintro (h' | ⟨_, h2'⟩)
    · rw [he] at h'
      exact lt_irrefl _ h'
    · omega

theorem keyLtB_cotrans {a c : ℚ × Nat} (b : ℚ × Nat) (h : keyLtB a c = true) :
    keyLtB a b = true ∨ keyLtB b c = true := by
  rw [keyLtB_eq_true_iff] at h
  rw [keyLtB_eq_true_iff, keyLtB_eq_true_iff]
  rcases h with h | ⟨he, h2⟩
  · rcases lt_trichotomy a.1 b.1 with hb | hb | hb
    · exact Or.inl (Or.inl hb)
    · exact Or.inr (Or.inl (hb ▸ h))
    · exact Or.inr (Or.inl (lt_trans hb h))
  · rcases lt_trichotomy a.1 b.1 with hb | hb | hb
    · exact Or.inl (Or.inl hb)
    · rcases Nat.lt_or_ge a.2 b.2 with h2b | h2b
      · exact Or.inl (Or.inr ⟨hb, h2b⟩)
      · refine Or.inr (Or.inr ⟨?_, ?_⟩)
        · rw [← hb, he]
        · omega
    · exact Or.inr (Or.inl (he ▸ hb))

theorem sortByKeyDesc_head_max :
    ∀ l : List (String × PatternStats), l ≠ [] →
      ∃ b t, sortByKeyDesc l = b :: t ∧ b ∈ l ∧
        ∀ x ∈ l, keyLtB (statKey b.2) (statKey x.2) = false := by
  intro l
  induction l with
  | nil => intro h; exact absurd rfl h
  | cons a l' ih =>
    intro _
    rcases eq_or_ne l' [] with rfl | hl'
    · refine ⟨a, [], rfl, List.mem_singleton_self a, ?_⟩
      intro x hx
      rw [List.mem_singleton] at hx
      rw [hx]
      exact keyLtB_irrefl _
    · obtain ⟨b, t, hsort, hmem, hmax⟩ := ih hl'
      have hstep : sortByKeyDesc (a :: l') = insertByKeyDesc a (b :: t) := by
        show insertByKeyDesc a (sortByKeyDesc l') = _
        rw [hsort]
      by_cases hab : keyLtB (statKey a.2) (statKey b.2) = true
      · refine ⟨b, insertByKeyDesc a t, ?_, List.mem_cons_of_mem _ hmem, ?_⟩
        · rw [hstep]
          simp [insertByKeyDesc, hab]
        · intro x hx
          rcases List.mem_cons.mp hx with rfl | hx'
          · exact keyLtB_asymm hab
          · exact hmax x hx'
      · rw [Bool.not_eq_true] at hab
        refine ⟨a, b :: t, ?_, List.mem_cons_self _ _, ?_⟩
        · rw [hstep]
          simp [insertByKeyDesc, hab]
        · intro x hx
          rcases List.mem_cons.mp hx with rfl | hx'
          · exact keyLtB_irrefl _
          · by_contra hax
            rw [Bool.not_eq_false] at hax
            rcases keyLtB_cotrans (statKey b.2) hax with h1 | h2
            · rw [hab] at h1
              exact Bool.false_ne_true h1
            · rw [hmax x hx'] at h2
              exact Bool.false_ne_true h2

/-- C1 (amended): `get_best_pattern` returns `None` exactly when the agent
has no recorded patterns, and otherwise returns a recorded pattern whose
`(success_rate, uses)` key is lexicographically maximal; ties on both
components are broken by the order in which the patterns were first
recorded (the stable sort keeps the earliest-recorded maximum first), not by
pattern id. -/
theorem get_best_pattern_spec (mem : Memory) (agent : String) :
    (get_best_pattern mem agent = none ↔
      (dictGet mem.agent_patterns agent).getD [] = []) ∧
    (∀ p, get_best_pattern mem agent = some p →
      ∃ s, (p, s) ∈ (dictGet mem.agent_patterns agent).getD [] ∧
        ∀ q ∈ (dictGet mem.agent_patterns agent).getD [],
          keyLtB (statKey s) (statKey q.2) = false) := by
  cases hag : dictGet mem.agent_patterns agent with
  | none =>
    constructor
    · simp [get_best_pattern, hag]
    · intro p hp
      rw [get_best_pattern, hag] at hp
      exact absurd hp (by simp)
  | some pats =>
    rcases eq_or_ne pats [] with rfl | hne
    · constructor
      · simp [get_best_pattern, hag]
      · intro p hp
        rw [get_best_pattern, hag] at hp
        exact absurd hp (by simp)
    · obtain ⟨b, t, hsort, hmem, hmax⟩ := sortByKeyDesc_head_max pats hne
      constructor
      · rw [get_best_pattern, hag]
        simp [hne, hsort]
      · intro p hp
        rw [get_best_pattern, hag] at hp
        simp only [if_neg hne, hsort] at hp
        rw [Option.some_inj] at hp
        refine ⟨b.2, ?_, ?_⟩
        · rw [← hp]
          simpa using hmem
        · intro q hq
          exact hmax q hq

/-- Statistics used by the C1 counterexample: an exact tie on both
`success_rate` and `uses`. -/
def tieStats : PatternStats := { uses := 3, success_rate := 1/2, avg_metrics := [] }

/-- C1, counterexample to the frozen tie-break: the same set of (pattern id,
stats) entries recorded in two different orders gives two different best
patterns, so a tie on `(success_rate, uses)` is not resolved by pattern id
but by insertion order. -/
theorem bestPattern_tie_order_cex :
    ([("b", tieStats), ("a", tieStats)] : List (String × PatternStats)).Perm
        [("a", tieStats), ("b", tieStats)] ∧
    get_best_pattern
        { agent_patterns := [("A", [("b", tieStats), ("a", tieStats)])],
          chain_history := [] } "A" = some "b" ∧
    get_best_pattern
        { agent_patterns := [("A", [("a", tieStats), ("b", tieStats)])],
          chain_history := [] } "A" = some "a" := by
  refine ⟨List.Perm.swap _ _ _, ?_, ?_⟩ <;>
    · norm_num [get_best_pattern, dictGet, sortByKeyDesc, insertByKeyDesc,
        keyLtB, statKey, tieStats]
      simp

/-- C1, witness: on a ledger with patterns `p1` (success 1/2) and `p2`
(success 9/10) the result `p2` carries maximal statistics. -/
theorem get_best_pattern_spec_witness :
    ∃ s,
      ("p2", s) ∈
        (dictGet
          (Memory.mk
            [("A", [("p1", PatternStats.mk 5 (1/2) []), ("p2", PatternStats.mk 1 (9/10) [])])]
            []).agent_patterns "A").getD [] ∧
      ∀ q ∈
        (dictGet
          (Memory.mk
            [("A", [("p1", PatternStats.mk 5 (1/2) []), ("p2", PatternStats.mk 1 (9/10) [])])]
            []).agent_patterns "A").getD [],
        keyLtB (statKey s) (statKey q.2) = false :=
  (get_best_pattern_spec
    (Memory.mk
      [("A", [("p1", PatternStats.mk 5 (1/2) []), ("p2", PatternStats.mk 1 (9/10) [])])]
      []) "A").2 "p2"
    (by
      norm_num [get_best_pattern, dictGet, sortByKeyDesc, insertByKeyDesc,
        keyLtB, statKey]
      simp)

/-- C10: after every `record_chain_execution` the history holds at most 100
entries — exactly `min (old + 1) 100` — and is a suffix of the old history
with the new record appended (so exactly the most recent executions are
kept), while the per-(agent, pattern) statistics are untouched. -/
theorem record_chain_execution_spec (mem : Memory) (ts : String)
    (cfg : List ChainStep) (metrics : Dict ℚ) (output : String) :
    (record_chain_execution mem ts cfg metrics output).chain_history.length =
        min (mem.chain_history.length + 1) 100 ∧
    (record_chain_execution mem ts cfg metrics output).chain_history.length ≤ 100 ∧
    (record_chain_execution mem ts cfg metrics output).chain_history <:+
        mem.chain_history ++ [mkChainRecord ts cfg metrics output] ∧
    (record_chain_execution mem ts cfg metrics output).agent_patterns =
        mem.agent_patterns := by
  have hlen : (mem.chain_history ++ [mkChainRecord ts cfg metrics output]).length =
      mem.chain_history.length + 1 := by
    simp
  refine ⟨?_, ?_, ?_, rfl⟩
  · show (if _ > 100 then _ else _ : List ChainRecord).length = _
    split_ifs with h
    · rw [List.length_drop, hlen]
      rw [hlen] at h
      omega
    · rw [hlen]
      rw [hlen] at h
      omega
  · show (if _ > 100 then _ else _ : List ChainRecord).length ≤ 100
    split_ifs with h
    · rw [List.length_drop, hlen]
      omega
    · rw [hlen]
      rw [hlen] at h
      omega
  · show (if _ > 100 then _ else _ : List ChainRecord) <:+ _
    split_ifs with h
    · exact List.drop_suffix _ _
    · exact List.suffix_refl _

/-- `AgentChain._get_fallback_pattern` (v11.2): the fixed fallback graph;
the method's unused `agent` argument is dropped. -/
def get_fallback_pattern (current_pattern : String) : Option String :=
  dictGet
    [("StepwiseInsightSynthesis", "RoleDirective"),
     ("RoleDirective", "PatternCritiqueThenRewrite"),
     ("PatternCritiqueThenRewrite", "StepwiseInsightSynthesis")] current_pattern

/-- `AgentChain._execute_step` (v11.2): the deterministic stub output. -/
def execute_step_impl (agent pattern input_text : String) : String :=
  "Output from " ++ agent ++ " using " ++ pattern ++ " on input: " ++
    (input_text.take 100) ++ "..."

/-- The pattern a step actually runs (`AgentChain.execute`): when adaptive,
a non-empty best pattern from memory different from the configured one
replaces it. -/
def effective_pattern (adaptive : Bool) (mem : Memory)
    (agent pattern0 : String) : String :=
  if adaptive then
    match get_best_pattern mem agent with
    | some best_pattern =>
      if best_pattern ≠ "" ∧ best_pattern ≠ pattern0 then best_pattern else pattern0
    | none => pattern0
  else pattern0

/-- One entry of `self.reasoning_trail` (the derived `insights` field, pure
presentation data used only for the markdown trail, is not modelled). -/
structure TrailStep where
  step : Nat
  agent : String
  pattern : String
  metrics : Dict ℚ
deriving DecidableEq

/-- The mutable state of an `AgentChain` during `execute`, together with the
module-global `memory`. -/
structure ChainState where
  memory : Memory
  chain_output : String
  metrics : Dict ℚ
  reasoning_trail : List TrailStep
deriving DecidableEq

/-- One iteration of the `for step in self.config` loop of
`AgentChain.execute` (v11.2).  The evaluator (`evaluate_output` of the
v11.2 `evaluator_metrics` module, which is not among the repository files)
is passed in as a function of the produced text and the pattern name.
The primary attempt is always recorded; the fallback attempt is recorded
only inside the branch that adopts it. -/
def exec_step (evalOutput : String → String → Dict ℚ) (adaptive : Bool)
    (st : ChainState) (step : ChainStep) : ChainState :=
  let agent := step.agent
  let metrics_threshold := step.metrics_threshold.getD (7/10)
  let pattern := effective_pattern adaptive st.memory agent step.pattern
  let step_output := execute_step_impl agent pattern st.chain_output
  let metrics := evalOutput step_output pattern
  let mem1 := record_pattern_use st.memory agent pattern metrics
  let result :=
    if adaptive && metrics.any (fun mv => decide (mv.2 < metrics_threshold)) then
      match get_fallback_pattern pattern with
      | some fallback_pattern =>
        let fallback_output := execute_step_impl agent fallback_pattern st.chain_output
        let fallback_metrics := evalOutput fallback_output fallback_pattern
        if fallback_metrics.all (fun mv => decide (metrics_threshold ≤ mv.2)) then
          (fallback_output, fallback_metrics, fallback_pattern,
            record_pattern_use mem1 agent fallback_pattern fallback_metrics)
        else (step_output, metrics, pattern, mem1)
      | none => (step_output, metrics, pattern, mem1)
    else (step_output, metrics, pattern, mem1)
  { memory := result.2.2.2
    chain_output := result.1
    metrics := dictMerge st.metrics result.2.1
    reasoning_trail := st.reasoning_trail ++
      [{ step := st.reasoning_trail.length + 1, agent := agent,
         pattern := result.2.2.1, metrics := result.2.1 }] }

/-- `AgentChain.execute` (v11.2) on a fresh `AgentChain`: fold the steps,
then record the chain execution. -/
def execute (evalOutput : String → String → Dict ℚ) (config : List ChainStep)
    (input_text : String) (adaptive : Bool) (mem : Memory)
    (timestamp : String) : ChainState :=
  let st0 : ChainState :=
    { memory := mem, chain_output := input_text, metrics := [], reasoning_trail := [] }
  let stF := config.foldl (exec_step evalOutput adaptive) st0
  { stF with
    memory := record_chain_execution stF.memory timestamp config stF.metrics stF.chain_output }

theorem usesOf_record_self (mem : Memory) (a p : String) (c : Dict ℚ) :
    usesOf (record_pattern_use mem a p c) a p = usesOf mem a p + 1 := by
  rw [usesOf, getEntry_record_self]
  rfl

theorem usesOf_record_ne_pattern (mem : Memory) {a p p' : String} (c : Dict ℚ)
    (h : p ≠ p') : usesOf (record_pattern_use mem a p c) a p' = usesOf mem a p' := by
  rw [usesOf, getEntry_record_ne_pattern mem c h, usesOf]

theorem get_fallback_pattern_ne {p q : String}
    (h : get_fallback_pattern p = some q) : p ≠ q := by
  rcases eq_or_ne p "StepwiseInsightSynthesis" with rfl | h1
  · rw [show get_fallback_pattern "StepwiseInsightSynthesis" = some "RoleDirective" from rfl] at h
    rw [Option.some_inj] at h
    rw [← h]
    decide
  rcases eq_or_ne p "RoleDirective" with rfl | h2
  · rw [show get_fallback_pattern "RoleDirective" = some "PatternCritiqueThenRewrite" from rfl] at h
    rw [Option.some_inj] at h
    rw [← h]
    decide
  rcases eq_or_ne p "PatternCritiqueThenRewrite" with rfl | h3
  · rw [show get_fallback_pattern "PatternCritiqueThenRewrite" = some "StepwiseInsightSynthesis" from rfl] at h
    rw [Option.some_inj] at h
    rw [← h]
    decide
  · exfalso
    rw [get_fallback_pattern] at h
    simp [dictGet, Ne.symm h1, Ne.symm h2, Ne.symm h3] at h

/-- C3: when the primary attempt of a step scores below the threshold on
some metric, the effective pattern has a registered fallback, and the
fallback attempt meets the threshold on every metric, the step returns the
fallback's output, metrics and pattern, and the ledger gains exactly one use
on the primary key and one on the fallback key. -/
theorem exec_step_fallback_adopted
    (evalOutput : String → String → Dict ℚ) (st : ChainState) (step : ChainStep)
    (pat fb : String) (thr : ℚ)
    (hpat : effective_pattern true st.memory step.agent step.pattern = pat)
    (hthr : step.metrics_threshold.getD (7/10) = thr)
    (hfb : get_fallback_pattern pat = some fb)
    (hbelow : (evalOutput (execute_step_impl step.agent pat st.chain_output) pat).any
        (fun mv => decide (mv.2 < thr)) = true)
    (hall : (evalOutput (execute_step_impl step.agent fb st.chain_output) fb).all
        (fun mv => decide (thr ≤ mv.2)) = true) :
    (exec_step evalOutput true st step).chain_output =
        execute_step_impl step.agent fb st.chain_output ∧
    (exec_step evalOutput true st step).metrics =
        dictMerge st.metrics
          (evalOutput (execute_step_impl step.agent fb st.chain_output) fb) ∧
    (exec_step evalOutput true st step).reasoning_trail =
        st.reasoning_trail ++
          [{ step := st.reasoning_trail.length + 1, agent := step.agent, pattern := fb,
             metrics := evalOutput (execute_step_impl step.agent fb st.chain_output) fb }] ∧
    usesOf (exec_step evalOutput true st step).memory step.agent pat =
        usesOf st.memory step.agent pat + 1 ∧
    usesOf (exec_step evalOutput true st step).memory step.agent fb =
        usesOf st.memory step.agent fb + 1 := by
  have hne : pat ≠ fb := get_fallback_pattern_ne hfb
  simp only [exec_step, hpat, hthr, hfb, hbelow, hall, Bool.true_and, if_true]
  refine ⟨trivial, trivial, trivial, ?_, ?_⟩
  · rw [usesOf_record_ne_pattern _ _ (Ne.symm hne), usesOf_record_self]
  · rw [usesOf_record_self, usesOf_record_ne_pattern _ _ hne]

/-- C3, witness: the frozen scenario — one step, primary overall 0.4,
registered fallback overall 0.8, threshold 0.7 — returns the fallback's
output and metrics and leaves one use on each of the two keys. -/
theorem exec_step_fallback_adopted_witness :
    (exec_step
        (fun _ pattern =>
          if pattern = "RoleDirective" then [("overall", (4:ℚ)/5)]
          else [("overall", (2:ℚ)/5)])
        true
        { memory := emptyMemory, chain_output := "hi", metrics := [],
          reasoning_trail := [] }
        { agent := "A", pattern := "StepwiseInsightSynthesis",
          metrics_threshold := none }).chain_output =
      execute_step_impl "A" "RoleDirective" "hi" ∧
    (exec_step
        (fun _ pattern =>
          if pattern = "RoleDirective" then [("overall", (4:ℚ)/5)]
          else [("overall", (2:ℚ)/5)])
        true
        { memory := emptyMemory, chain_output := "hi", metrics := [],
          reasoning_trail := [] }
        { agent := "A", pattern := "StepwiseInsightSynthesis",
          metrics_threshold := none }).metrics = [("overall", (4:ℚ)/5)] ∧
    (exec_step
        (fun _ pattern =>
          if pattern = "RoleDirective" then [("overall", (4:ℚ)/5)]
          else [("overall", (2:ℚ)/5)])
        true
        { memory := emptyMemory, chain_output := "hi", metrics := [],
          reasoning_trail := [] }
        { agent := "A", pattern := "StepwiseInsightSynthesis",
          metrics_threshold := none }).reasoning_trail =
      [{ step := 1, agent := "A", pattern := "RoleDirective",
         metrics := [("overall", (4:ℚ)/5)] }] ∧
    usesOf (exec_step
        (fun _ pattern =>
          if pattern = "RoleDirective" then [("overall", (4:ℚ)/5)]
          else [("overall", (2:ℚ)/5)])
        true
        { memory := emptyMemory, chain_output := "hi", metrics := [],
          reasoning_trail := [] }
        { agent := "A", pattern := "StepwiseInsightSynthesis",
          metrics_threshold := none }).memory "A" "StepwiseInsightSynthesis" = 1 ∧
    usesOf (exec_step
        (fun _ pattern =>
          if pattern = "RoleDirective" then [("overall", (4:ℚ)/5)]
          else [("overall", (2:ℚ)/5)])
        true
        { memory := emptyMemory, chain_output := "hi", metrics := [],
          reasoning_trail := [] }
        { agent := "A", pattern := "StepwiseInsightSynthesis",
          metrics_threshold := none }).memory "A" "RoleDirective" = 1 := by
  have h := exec_step_fallback_adopted
    (fun _ pattern =>
      if pattern = "RoleDirective" then [("overall", (4:ℚ)/5)]
      else [("overall", (2:ℚ)/5)])
    { memory := emptyMemory, chain_output := "hi", metrics := [],
      reasoning_trail := [] }
    { agent := "A", pattern := "StepwiseInsightSynthesis",
      metrics_threshold := none }
    "StepwiseInsightSynthesis" "RoleDirective" (7/10)
    rfl rfl rfl
    (by
      show ([(("overall" : String), (2:ℚ)/5)].any
        (fun mv => decide (mv.2 < (7:ℚ)/10))) = true
      norm_num [List.any_cons, List.any_nil])
    (by
      show ([(("overall" : String), (4:ℚ)/5)].all
        (fun mv => decide ((7:ℚ)/10 ≤ mv.2))) = true
      norm_num [List.all_cons, List.all_nil])
  exact ⟨h.1, h.2.1, h.2.2.1, h.2.2.2.1, h.2.2.2.2⟩

/-- C4 (amended): when a fallback attempt is made and still scores below the
threshold on some metric, the step keeps the primary output, metrics and
pattern, one use is recorded on the primary key, and the fallback key's
ledger entry is left exactly as it was — no usage is recorded for the
discarded fallback attempt. -/
theorem exec_step_fallback_rejected
    (evalOutput : String → String → Dict ℚ) (st : ChainState) (step : ChainStep)
    (pat fb : String) (thr : ℚ)
    (hpat : effective_pattern true st.memory step.agent step.pattern = pat)
    (hthr : step.metrics_threshold.getD (7/10) = thr)
    (hfb : get_fallback_pattern pat = some fb)
    (hbelow : (evalOutput (execute_step_impl step.agent pat st.chain_output) pat).any
        (fun mv => decide (mv.2 < thr)) = true)
    (hfail : (evalOutput (execute_step_impl step.agent fb st.chain_output) fb).all
        (fun mv => decide (thr ≤ mv.2)) = false) :
    (exec_step evalOutput true st step).chain_output =
        execute_step_impl step.agent pat st.chain_output ∧
    (exec_step evalOutput true st step).metrics =
        dictMerge st.metrics
          (evalOutput (execute_step_impl step.agent pat st.chain_output) pat) ∧
    (exec_step evalOutput true st step).reasoning_trail =
        st.reasoning_trail ++
          [{ step := st.reasoning_trail.length + 1, agent := step.agent, pattern := pat,
             metrics := evalOutput (execute_step_impl step.agent pat st.chain_output) pat }] ∧
    usesOf (exec_step evalOutput true st step).memory step.agent pat =
        usesOf st.memory step.agent pat + 1 ∧
    getEntry (exec_step evalOutput true st step).memory step.agent fb =
        getEntry st.memory step.agent fb := by
  have hne : pat ≠ fb := get_fallback_pattern_ne hfb
  simp only [exec_step, hpat, hthr, hfb, hbelow, hfail, Bool.true_and, if_true,
    Bool.false_eq_true, if_false]
  refine ⟨trivial, trivial, trivial, ?_, ?_⟩
  · rw [usesOf_record_self]
  · rw [getEntry_record_ne_pattern _ _ hne]

/-- C4, counterexample to the frozen claim: primary overall 0.4, fallback
overall 0.5, threshold 0.7 — the fallback attempt is made and discarded, and
the fallback key ends with zero recorded uses (the claim says its usage is
recorded regardless). -/
theorem fallback_usage_not_recorded_cex :
    usesOf (exec_step
        (fun _ pattern =>
          if pattern = "RoleDirective" then [("overall", (1:ℚ)/2)]
          else [("overall", (2:ℚ)/5)])
        true
        { memory := emptyMemory, chain_output := "hi", metrics := [],
          reasoning_trail := [] }
        { agent := "A", pattern := "StepwiseInsightSynthesis",
          metrics_threshold := none }).memory "A" "RoleDirective" = 0 ∧
    (exec_step
        (fun _ pattern =>
          if pattern = "RoleDirective" then [("overall", (1:ℚ)/2)]
          else [("overall", (2:ℚ)/5)])
        true
        { memory := emptyMemory, chain_output := "hi", metrics := [],
          reasoning_trail := [] }
        { agent := "A", pattern := "StepwiseInsightSynthesis",
          metrics_threshold := none }).chain_output =
      execute_step_impl "A" "StepwiseInsightSynthesis" "hi" := by
  have h := exec_step_fallback_rejected
    (fun _ pattern =>
      if pattern = "RoleDirective" then [("overall", (1:ℚ)/2)]
      else [("overall", (2:ℚ)/5)])
    { memory := emptyMemory, chain_output := "hi", metrics := [],
      reasoning_trail := [] }
    { agent := "A", pattern := "StepwiseInsightSynthesis",
      metrics_threshold := none }
    "StepwiseInsightSynthesis" "RoleDirective" (7/10)
    rfl rfl rfl
    (by
      show ([(("overall" : String), (2:ℚ)/5)].any
        (fun mv => decide (mv.2 < (7:ℚ)/10))) = true
      norm_num [List.any_cons, List.any_nil])
    (by
      show ([(("overall" : String), (1:ℚ)/2)].all
        (fun mv => decide ((7:ℚ)/10 ≤ mv.2))) = false
      norm_num [List.all_cons, List.all_nil])
  refine ⟨?_, h.1⟩
  rw [usesOf, h.2.2.2.2]
  rfl

/-- C4, witness: primary `RoleDirective` at overall 0.5, fallback
`PatternCritiqueThenRewrite` at overall 0.6, threshold 0.7 — the step keeps
the primary result, records one use for it, and the fallback entry stays
absent. -/
theorem exec_step_fallback_rejected_witness :
    (exec_step
        (fun _ pattern =>
          if pattern = "PatternCritiqueThenRewrite" then [("overall", (3:ℚ)/5)]
          else [("overall", (1:ℚ)/2)])
        true
        { memory := emptyMemory, chain_output := "x", metrics := [],
          reasoning_trail := [] }
        { agent := "B", pattern := "RoleDirective",
          metrics_threshold := none }).chain_output =
      execute_step_impl "B" "RoleDirective" "x" ∧
    (exec_step
        (fun _ pattern =>
          if pattern = "PatternCritiqueThenRewrite" then [("overall", (3:ℚ)/5)]
          else [("overall", (1:ℚ)/2)])
        true
        { memory := emptyMemory, chain_output := "x", metrics := [],
          reasoning_trail := [] }
        { agent := "B", pattern := "RoleDirective",
          metrics_threshold := none }).metrics = [("overall", (1:ℚ)/2)] ∧
    usesOf (exec_step
        (fun _ pattern =>
          if pattern = "PatternCritiqueThenRewrite" then [("overall", (3:ℚ)/5)]
          else [("overall", (1:ℚ)/2)])
        true
        { memory := emptyMemory, chain_output := "x", metrics := [],
          reasoning_trail := [] }
        { agent := "B", pattern := "RoleDirective",
          metrics_threshold := none }).memory "B" "RoleDirective" = 1 ∧
    getEntry (exec_step
        (fun _ pattern =>
          if pattern = "PatternCritiqueThenRewrite" then [("overall", (3:ℚ)/5)]
          else [("overall", (1:ℚ)/2)])
        true
        { memory := emptyMemory, chain_output := "x", metrics := [],
          reasoning_trail := [] }
        { agent := "B", pattern := "RoleDirective",
          metrics_threshold := none }).memory "B" "PatternCritiqueThenRewrite" = none := by
  have h := exec_step_fallback_rejected
    (fun _ pattern =>
      if pattern = "PatternCritiqueThenRewrite" then [("overall", (3:ℚ)/5)]
      else [("overall", (1:ℚ)/2)])
    { memory := emptyMemory, chain_output := "x", metrics := [],
      reasoning_trail := [] }
    { agent := "B", pattern := "RoleDirective",
      metrics_threshold := none }
    "RoleDirective" "PatternCritiqueThenRewrite" (7/10)
    rfl rfl rfl
    (by
      show ([(("overall" : String), (1:ℚ)/2)].any
        (fun mv => decide (mv.2 < (7:ℚ)/10))) = true
      norm_num [List.any_cons, List.any_nil])
    (by
      show ([(("overall" : String), (3:ℚ)/5)].all
        (fun mv => decide ((7:ℚ)/10 ≤ mv.2))) = false
      norm_num [List.all_cons, List.all_nil])
  exact ⟨h.1, h.2.1, h.2.2.2.1, h.2.2.2.2⟩

/-- Python `m.get("overall", 0)`. -/
def overallOf (m : Dict ℚ) : ℚ := (dictGet m "overall").getD 0

/-- `calculate_improvement_trend` (`agent_chain.py`): 1.0 for fewer than two
history entries, otherwise the mean of consecutive differences of the
`overall` scores plus 1.0. -/
def calculate_improvement_trend (metrics_history : List (Dict ℚ)) : ℚ :=
  if metrics_history.length < 2 then 1
  else
    let overall_scores := metrics_history.map overallOf
    let improvements := (overall_scores.zip overall_scores.tail).map (fun ab => ab.2 - ab.1)
    improvements.sum / (improvements.length : ℚ) + 1

/-- `calculate_consistency_score` (`agent_chain.py`): one minus the variance
of the `overall` scores, the variance capped at 1; 1.0 for an empty
history. -/
def calculate_consistency_score (metrics_history : List (Dict ℚ)) : ℚ :=
  if metrics_history = [] then 1
  else
    let overall_scores := metrics_history.map overallOf
    let mean := overall_scores.sum / (overall_scores.length : ℚ)
    let variance :=
      (overall_scores.map (fun x => (x - mean) ^ 2)).sum / (overall_scores.length : ℚ)
    1 - min variance 1

/-- `calculate_chain_effectiveness` (`agent_chain.py`): 0 on an empty
history, otherwise `trend*0.3 + consistency*0.3 + final_overall*0.4`. -/
def calculate_chain_effectiveness (metrics_history : List (Dict ℚ)) : ℚ :=
  if metrics_history = [] then 0
  else
    calculate_improvement_trend metrics_history * (3/10) +
      calculate_consistency_score metrics_history * (3/10) +
      overallOf (metrics_history.getLast?.getD []) * (4/10)

/-- The rating expression of `assess_chain_quality`. -/
def ratingOf (chain_effectiveness : ℚ) : String :=
  if chain_effectiveness > 9/10 then "excellent"
  else if chain_effectiveness > 8/10 then "good"
  else if chain_effectiveness > 7/10 then "acceptable"
  else "needs_improvement"

/-- The dictionary `assess_chain_quality` builds (its unused `results`
argument is dropped). -/
structure QualityAssessment where
  score : ℚ
  rating : String
  strengths : List String
  improvement_areas : List String
deriving DecidableEq

/-- `assess_chain_quality` (`agent_chain.py`).  On an empty history the
Python function raises `IndexError` at `metrics_history[-1]` before
returning, modelled as `none`. -/
def assess_chain_quality (metrics_history : List (Dict ℚ)) : Option QualityAssessment :=
  match metrics_history.getLast? with
  | none => none
  | some lastm =>
    let chain_effectiveness := calculate_chain_effectiveness metrics_history
    some
      { score := chain_effectiveness
        rating := ratingOf chain_effectiveness
        strengths :=
          (if calculate_improvement_trend metrics_history > 0 then
            ["Consistent improvement across chain"] else []) ++
          (if calculate_consistency_score metrics_history > 8/10 then
            ["High output consistency"] else []) ++
          (if (dictGet lastm "block_relevance").getD 0 > 8/10 then
            ["Strong Block-specific relevance"] else [])
        improvement_areas :=
          (if calculate_consistency_score metrics_history < 7/10 then
            ["Output consistency could be improved"] else []) ++
          (if (dictGet lastm "innovation_score").getD 0 < 7/10 then
            ["Innovation level could be enhanced"] else []) ++
          (if (dictGet lastm "pattern_effectiveness").getD 0 < 7/10 then
            ["Pattern application could be more effective"] else []) }

theorem zip_diff_sum (x : ℚ) (l : List ℚ) :
    (((x :: l).zip l).map (fun ab => ab.2 - ab.1)).sum = l.getLast?.getD x - x := by
  induction l generalizing x with
  | nil => simp
  | cons y l2 ih =>
    simp only [List.zip_cons_cons, List.map_cons, List.sum_cons, ih y]
    cases l2 with
    | nil => simp
    | cons z l3 =>
      rw [List.getLast?_cons_cons]
      obtain ⟨w, hw⟩ : ∃ w, (z :: l3).getLast? = some w :=
        ⟨(z :: l3).getLast (by simp), List.getLast?_eq_getLast _ _⟩
      rw [hw]
      simp only [Option.getD_some]
      ring

/-- C6: the improvement trend is 1.0 for fewer than two entries; for longer
histories it telescopes to `(last overall - first overall)/(n-1) + 1`, the
mean of the consecutive differences plus one; a history with all `overall`
scores equal yields exactly 1.0. -/
theorem improvement_trend_spec (h : List (Dict ℚ)) :
    (h.length < 2 → calculate_improvement_trend h = 1) ∧
    (2 ≤ h.length →
      calculate_improvement_trend h =
        (overallOf (h.getLast?.getD []) - overallOf (h.head?.getD [])) /
          ((h.length : ℚ) - 1) + 1) ∧
    (∀ c : ℚ, (∀ m ∈ h, overallOf m = c) → calculate_improvement_trend h = 1) := by
  have part1 : h.length < 2 → calculate_improvement_trend h = 1 := by
    intro hlt
    simp [calculate_improvement_trend, hlt]
  have part2 : 2 ≤ h.length →
      calculate_improvement_trend h =
        (overallOf (h.getLast?.getD []) - overallOf (h.head?.getD [])) /
          ((h.length : ℚ) - 1) + 1 := by
    intro hge
    obtain ⟨m0, t, rfl⟩ : ∃ m0 t, h = m0 :: t := by
      cases h with
      | nil => exact absurd hge (by simp)
      | cons a t => exact ⟨a, t, rfl⟩
    obtain ⟨r1, rest2, rfl⟩ : ∃ r1 rest2, t = r1 :: rest2 := by
      cases t with
      | nil => exact absurd hge (by simp)
      | cons a t2 => exact ⟨a, t2, rfl⟩
    have hnotlt : ¬ (m0 :: r1 :: rest2).length < 2 := by
      simp [List.length_cons]
    rw [calculate_improvement_trend, if_neg hnotlt]
    simp only [List.map_cons, List.tail_cons]
    have hmap : (overallOf r1 :: rest2.map overallOf) = (r1 :: rest2).map overallOf := by
      simp
    have hminlen : (((overallOf m0 :: overallOf r1 :: rest2.map overallOf).zip
        (overallOf r1 :: rest2.map overallOf)).map (fun ab => ab.2 - ab.1)).length
        = rest2.length + 1 := by
      simp [List.length_zip]
    rw [zip_diff_sum (overallOf m0) (overallOf r1 :: rest2.map overallOf), hminlen]
    have hlast : (r1 :: rest2).getLast? = some ((r1 :: rest2).getLast (by simp)) :=
      List.getLast?_eq_getLast _ _
    rw [hmap, List.getLast?_map, List.getLast?_cons_cons, hlast]
    simp only [Option.map_some, Option.map_some', Option.getD_some, List.head?_cons,
      List.length_cons]
    push_cast
    ring
  refine ⟨part1, part2, ?_⟩
  intro c hall
  rcases lt_or_le h.length 2 with hlt | hge
  · exact part1 hlt
  · obtain ⟨m0, t, rfl⟩ : ∃ m0 t, h = m0 :: t := by
      cases h with
      | nil => exact absurd hge (by simp)
      | cons a t => exact ⟨a, t, rfl⟩
    rw [part2 hge]
    have hmemL : (m0 :: t).getLast?.getD [] ∈ m0 :: t := by
      rw [List.getLast?_eq_getLast (m0 :: t) (by simp), Option.getD_some]
      exact List.getLast_mem _
    have hL := hall _ hmemL
    have hH : overallOf ((m0 :: t).head?.getD []) = c := by
      simpa using hall m0 (by simp)
    rw [hL, hH]
    simp

/-- C6, witness: history `overall = 0.6` then `0.9` yields exactly 1.3, and
a flat three-entry history yields exactly 1.0. -/
theorem improvement_trend_spec_witness :
    calculate_improvement_trend
        [[("overall", (3:ℚ)/5)], [("overall", (9:ℚ)/10)]] = 13/10 ∧
    calculate_improvement_trend
        [[("overall", (1:ℚ)/2)], [("overall", (1:ℚ)/2)], [("overall", (1:ℚ)/2)]] = 1 := by
  constructor
  · rw [(improvement_trend_spec
      [[("overall", (3:ℚ)/5)], [("overall", (9:ℚ)/10)]]).2.1 (by simp)]
    norm_num [overallOf, dictGet, List.getLast?_cons_cons]
  · exact (improvement_trend_spec
      [[("overall", (1:ℚ)/2)], [("overall", (1:ℚ)/2)], [("overall", (1:ℚ)/2)]]).2.2
      ((1:ℚ)/2) (by
        intro m hm
        fin_cases hm <;> norm_num [overallOf, dictGet])

theorem ratingOf_spec (eff : ℚ) :
    (ratingOf eff = "excellent" ↔ 9/10 < eff) ∧
    (ratingOf eff = "good" ↔ 8/10 < eff ∧ eff ≤ 9/10) ∧
    (ratingOf eff = "acceptable" ↔ 7/10 < eff ∧ eff ≤ 8/10) ∧
    (ratingOf eff = "needs_improvement" ↔ eff ≤ 7/10) := by
  unfold ratingOf
  split_ifs with h9 h8 h7
  · refine ⟨iff_of_true rfl h9, iff_of_false (by decide) ?_, iff_of_false (by decide) ?_,
      iff_of_false (by decide) ?_⟩
    · rintro ⟨-, hle⟩
      linarith
    · rintro ⟨-, hle⟩
      linarith
    · intro hle
      linarith
  · refine ⟨iff_of_false (by decide) h9, iff_of_true rfl ⟨h8, le_of_not_lt h9⟩,
      iff_of_false (by decide) ?_, iff_of_false (by decide) ?_⟩
    · rintro ⟨-, hle⟩
      linarith
    · intro hle
      linarith
  · refine ⟨iff_of_false (by decide) h9, iff_of_false (by decide) ?_,
      iff_of_true rfl ⟨h7, le_of_not_lt h8⟩, iff_of_false (by decide) ?_⟩
    · rintro ⟨hgt, -⟩
      exact h8 hgt
    · intro hle
      linarith
  · refine ⟨iff_of_false (by decide) h9, iff_of_false (by decide) ?_,
      iff_of_false (by decide) ?_, iff_of_true rfl (le_of_not_lt h7)⟩
    · rintro ⟨hgt, -⟩
      exact h8 hgt
    · rintro ⟨hgt, -⟩
      exact h7 hgt

theorem assess_rating (h : List (Dict ℚ)) (a : QualityAssessment)
    (ha : assess_chain_quality h = some a) :
    a.score = calculate_chain_effectiveness h ∧
    a.rating = ratingOf (calculate_chain_effectiveness h) := by
  unfold assess_chain_quality at ha
  cases hL : h.getLast? with
  | none =>
    rw [hL] at ha
    exact absurd ha (by simp)
  | some lastm =>
    rw [hL] at ha
    simp only [Option.some.injEq] at ha
    subst ha
    exact ⟨rfl, rfl⟩

/-- C7: the chain effectiveness of a nonempty history is
`0.3*trend + 0.3*consistency + 0.4*(last overall)`, an empty history scores
0.0, and the rating derived from it is `excellent` iff effectiveness > 0.9,
`good` iff 0.8 < effectiveness <= 0.9, `acceptable` iff
0.7 < effectiveness <= 0.8 (so exactly 0.8 rates `acceptable`), and
`needs_improvement` otherwise. -/
theorem chain_quality_spec (h : List (Dict ℚ)) :
    calculate_chain_effectiveness ([] : List (Dict ℚ)) = 0 ∧
    (h ≠ [] →
      calculate_chain_effectiveness h =
        (3/10) * calculate_improvement_trend h +
          (3/10) * calculate_consistency_score h +
          (4/10) * overallOf (h.getLast?.getD [])) ∧
    (∀ a, assess_chain_quality h = some a →
      a.score = calculate_chain_effectiveness h ∧
      (a.rating = "excellent" ↔ 9/10 < calculate_chain_effectiveness h) ∧
      (a.rating = "good" ↔ 8/10 < calculate_chain_effectiveness h ∧
        calculate_chain_effectiveness h ≤ 9/10) ∧
      (a.rating = "acceptable" ↔ 7/10 < calculate_chain_effectiveness h ∧
        calculate_chain_effectiveness h ≤ 8/10) ∧
      (a.rating = "needs_improvement" ↔ calculate_chain_effectiveness h ≤ 7/10)) := by
  refine ⟨by simp [calculate_chain_effectiveness], ?_, ?_⟩
  · intro hne
    rw [calculate_chain_effectiveness, if_neg hne]
    ring
  · intro a ha
    obtain ⟨hscore, hrating⟩ := assess_rating h a ha
    rw [hrating]
    obtain ⟨s1, s2, s3, s4⟩ := ratingOf_spec (calculate_chain_effectiveness h)
    exact ⟨hscore, s1, s2, s3, s4⟩

/-- C7, witness: a single step with `overall = 0.5` gives effectiveness
exactly 0.8, rated `acceptable` (not `good`). -/
theorem chain_quality_spec_witness :
    calculate_chain_effectiveness [[("overall", (1:ℚ)/2)]] = 8/10 ∧
    ratingOf (calculate_chain_effectiveness [[("overall", (1:ℚ)/2)]]) = "acceptable" := by
  have heff : calculate_chain_effectiveness [[("overall", (1:ℚ)/2)]] = 8/10 := by
    rw [(chain_quality_spec [[("overall", (1:ℚ)/2)]]).2.1 (by simp)]
    norm_num [calculate_improvement_trend, calculate_consistency_score, overallOf, dictGet]
  refine ⟨heff, ?_⟩
  rw [heff]
  norm_num [ratingOf]

/-- Outcomes of the text inspections `evaluate_output` (v12.0
`evaluator_metrics.py`) performs: one field per regex / substring test of
the source, so every score function depends on the input text only through
these observations. -/
structure TextFeatures where
  strip_len_gt20 : Bool
  has_clear_sections : Bool
  has_proper_capitalization : Bool
  has_proper_formatting : Bool
  strip_endswith_period : Bool
  has_complete_sentences : Bool
  has_proper_structure : Bool
  containsSub : String → Bool
  lowerContains : String → Bool
  matchesCI : String → Bool

/-- The context observations `evaluate_output` makes. -/
structure EvalContext where
  tags_has_goal : Bool
  domain_block : Bool
  has_industry : Bool
  innovation_required : Bool

/-- Python `round(x, 2)` on the exact rational value.  (CPython rounds
binary floats half to even; only that the result is a rounding into the
same unit interval matters to the claims, so the half-up `round` is used.) -/
def round2 (q : ℚ) : ℚ := ((round (q * 100) : ℤ) : ℚ) / 100

/-- Python `round(x, 3)`. -/
def round3 (q : ℚ) : ℚ := ((round (q * 1000) : ℤ) : ℚ) / 1000

/-- Python `sum(1 for indicator in l if test(indicator))`. -/
def countMatches (test : String → Bool) (l : List String) : Nat :=
  (l.filter test).length

/-- `calculate_clarity_score`. -/
def calculate_clarity_score (t : TextFeatures) : ℚ :=
  let base_score : ℚ := if t.strip_len_gt20 then 1 else 2/10
  let modifiers : List ℚ :=
    [if t.has_clear_sections then 1 else 8/10,
     if t.has_proper_capitalization then 1 else 9/10,
     if t.has_proper_formatting then 1 else 9/10]
  round2 (base_score * modifiers.sum / (modifiers.length : ℚ))

/-- The `pattern_indicators` table of `calculate_structure_adherence`. -/
def structure_indicators : Dict (List String) :=
  [("StepwiseInsightSynthesis", ["\\b\\d+[\\)\\.]\\s", "insight|analysis|finding"]),
   ("RoleDirective", ["as\\s+[aA]\\s+[A-Z][a-z]+", "perspective|viewpoint|stance"]),
   ("PatternCritiqueThenRewrite", ["critique|analysis|review", "improved|enhanced|rewritten"])]

/-- `calculate_structure_adherence`. -/
def calculate_structure_adherence (t : TextFeatures) (pattern_name : String) : ℚ :=
  let base_score : ℚ := if t.containsSub pattern_name then 1 else 5/10
  match dictGet structure_indicators pattern_name with
  | some indicators =>
    let indicator_score : ℚ :=
      (countMatches t.matchesCI indicators : ℚ) / (indicators.length : ℚ)
    round2 ((base_score + indicator_score) / 2)
  | none => base_score

/-- `calculate_alignment_score`. -/
def calculate_alignment_score (context : EvalContext) : ℚ :=
  let base_score : ℚ := if context.tags_has_goal then 9/10 else 6/10
  let base_score := if context.domain_block then base_score * (11/10) else base_score
  let base_score := if context.has_industry then base_score * (105/100) else base_score
  round2 (min base_score 1)

/-- `calculate_completion_score`. -/
def calculate_completion_score (t : TextFeatures) : ℚ :=
  let base_score : ℚ := if t.strip_endswith_period then 1 else 7/10
  let modifiers : List ℚ :=
    [if t.has_complete_sentences then 1 else 8/10,
     if t.has_proper_structure then 1 else 9/10]
  round2 (base_score * modifiers.sum / (modifiers.length : ℚ))

/-- The `block_terms` list of `calculate_block_relevance`. -/
def block_terms : List String :=
  ["cash app", "support", "customer", "payment", "transaction",
   "security", "compliance", "user experience", "workflow"]

/-- `calculate_block_relevance`. -/
def calculate_block_relevance (t : TextFeatures) (context : EvalContext) : ℚ :=
  let base_score : ℚ :=
    min ((countMatches t.lowerContains block_terms : ℚ) / (block_terms.length : ℚ) + 3/10) 1
  let base_score := if context.domain_block then min (base_score + 2/10) 1 else base_score
  round2 base_score

/-- The `pattern_purposes` table of `calculate_pattern_effectiveness`. -/
def pattern_purposes : Dict (List String) :=
  [("StepwiseInsightSynthesis",
      ["step[s]?\\s+\\d", "insight|finding|analysis", "therefore|thus|conclusion"]),
   ("RoleDirective",
      ["as\\s+[aA]\\s+[A-Z][a-z]+", "recommend|suggest|advise", "expertise|experience|knowledge"]),
   ("PatternCritiqueThenRewrite",
      ["issue|problem|concern", "improve|enhance|optimize", "solution|resolution|approach"])]

/-- `calculate_pattern_effectiveness`: 0.7 (unrounded) for unknown patterns. -/
def calculate_pattern_effectiveness (t : TextFeatures) (pattern_name : String) : ℚ :=
  match dictGet pattern_purposes pattern_name with
  | some indicators =>
    round2 ((countMatches t.matchesCI indicators : ℚ) / (indicators.length : ℚ))
  | none => 7/10

/-- The `innovation_indicators` list of `calculate_innovation_score`. -/
def innovation_indicators : List String :=
  ["new|novel|innovative", "unique|creative|original",
   "breakthrough|revolutionary|transformative"]

/-- `calculate_innovation_score`. -/
def calculate_innovation_score (t : TextFeatures) (context : EvalContext) : ℚ :=
  let base_score : ℚ :=
    (countMatches t.matchesCI innovation_indicators : ℚ) / (innovation_indicators.length : ℚ)
  let base_score :=
    if context.innovation_required then min (base_score + 2/10) 1 else base_score
  round2 base_score

/-- A JSON-like value, for the heterogeneous dictionary `evaluate_output`
returns (its `breakdown` entry is a nested object, not a float). -/
inductive JsonVal where
  | num (q : ℚ)
  | str (s : String)
  | arr (l : List JsonVal)
  | obj (l : List (String × JsonVal))

/-- One metric entry of `get_score_breakdown`. -/
def metric_breakdown_entry (score weight : ℚ) : JsonVal :=
  .obj [("score", .num score), ("weight", .num weight),
        ("contribution", .num (round3 (score * weight)))]

/-- `generate_score_insights`. -/
def generate_score_insights (clarity_score block_relevance innovation_score
    pattern_effectiveness : ℚ) : List String :=
  let insights :=
    (if clarity_score < 7/10 then
      ["Clarity could be improved with better structure and formatting"] else []) ++
    (if block_relevance < 7/10 then
      ["Could be more relevant to Block\x27s specific context"] else []) ++
    (if innovation_score < 6/10 then
      ["Consider adding more innovative or novel elements"] else []) ++
    (if pattern_effectiveness < 7/10 then
      ["Pattern could be applied more effectively"] else [])
  if insights = [] then ["All metrics are within acceptable ranges"] else insights

/-- `get_score_breakdown`. -/
def get_score_breakdown (clarity_score structure_adherence alignment_score
    completion_score block_relevance pattern_effectiveness innovation_score : ℚ) : JsonVal :=
  .obj
    [("metrics", .obj
        [("clarity", metric_breakdown_entry clarity_score (15/100)),
         ("structure", metric_breakdown_entry structure_adherence (15/100)),
         ("alignment", metric_breakdown_entry alignment_score (15/100)),
         ("completion", metric_breakdown_entry completion_score (15/100)),
         ("block_relevance", metric_breakdown_entry block_relevance (15/100)),
         ("pattern_effectiveness", metric_breakdown_entry pattern_effectiveness (15/100)),
         ("innovation", metric_breakdown_entry innovation_score (10/100))]),
     ("insights", .arr ((generate_score_insights clarity_score block_relevance
        innovation_score pattern_effectiveness).map .str))]

/-- `evaluate_output` (v12.0): the returned dictionary, with the weighted
`overall` score and the nested `breakdown` object. -/
def evaluate_output (t : TextFeatures) (pattern_name : String)
    (context : EvalContext) : Dict JsonVal :=
  let clarity_score := calculate_clarity_score t
  let structure_adherence := calculate_structure_adherence t pattern_name
  let alignment_score := calculate_alignment_score context
  let completion_score := calculate_completion_score t
  let block_relevance := calculate_block_relevance t context
  let pattern_effectiveness := calculate_pattern_effectiveness t pattern_name
  let innovation_score := calculate_innovation_score t context
  let overall := round2
    (clarity_score * (15/100) + structure_adherence * (15/100) +
     alignment_score * (15/100) + completion_score * (15/100) +
     block_relevance * (15/100) + pattern_effectiveness * (15/100) +
     innovation_score * (10/100))
  [("clarity_score", .num clarity_score),
   ("structure_adherence", .num structure_adherence),
   ("alignment_score", .num alignment_score),
   ("completion_score", .num completion_score),
   ("block_relevance", .num block_relevance),
   ("pattern_effectiveness", .num pattern_effectiveness),
   ("innovation_score", .num innovation_score),
   ("overall", .num overall),
   ("breakdown", get_score_breakdown clarity_score structure_adherence alignment_score
      completion_score block_relevance pattern_effectiveness innovation_score)]

/-- Test for "a float in [0, 1]" over the returned values. -/
def isUnitNum : JsonVal → Bool
  | .num q => decide (0 ≤ q) && decide (q ≤ 1)
  | _ => false

theorem round2_unit {q : ℚ} (h0 : 0 ≤ q) (h1 : q ≤ 1) :
    0 ≤ round2 q ∧ round2 q ≤ 1 := by
  unfold round2
  have hr0 : (0:ℤ) ≤ round (q * 100) := by
    rw [round_eq]
    exact Int.floor_nonneg.mpr (by linarith)
  have hr1 : round (q * 100) ≤ 100 := by
    have hlt : ⌊q * 100 + 1/2⌋ < 101 := by
      rw [Int.floor_lt]
      push_cast
      linarith
    rw [round_eq]
    omega
  constructor
  · apply div_nonneg _ (by norm_num)
    exact_mod_cast hr0
  · rw [div_le_one (by norm_num)]
    exact_mod_cast hr1

theorem dictGet_mem {α : Type} {d : Dict α} {k : String} {v : α}
    (h : dictGet d k = some v) : (k, v) ∈ d := by
  induction d with
  | nil => simp [dictGet] at h
  | cons hd tl ih =>
    obtain ⟨k2, v2⟩ := hd
    rw [dictGet] at h
    by_cases hk : k2 = k
    · rw [if_pos hk] at h
      rw [Option.some_inj] at h
      subst hk
      subst h
      exact List.mem_cons_self _ _
    · rw [if_neg hk] at h
      exact List.mem_cons_of_mem _ (ih h)

theorem count_div_unit (test : String → Bool) (l : List String) (h : l ≠ []) :
    0 ≤ (countMatches test l : ℚ) / (l.length : ℚ) ∧
      (countMatches test l : ℚ) / (l.length : ℚ) ≤ 1 := by
  have hlen : (0:ℚ) < (l.length : ℚ) := by
    have hpos := List.length_pos.mpr h
    exact_mod_cast hpos
  constructor
  · positivity
  · rw [div_le_one hlen]
    have hle : countMatches test l ≤ l.length := List.length_filter_le _ _
    exact_mod_cast hle

theorem clarity_unit (t : TextFeatures) :
    0 ≤ calculate_clarity_score t ∧ calculate_clarity_score t ≤ 1 := by
  simp only [calculate_clarity_score, List.sum_cons, List.sum_nil,
    List.length_cons, List.length_nil]
  apply round2_unit <;> (split_ifs <;> norm_num)

theorem structure_adherence_unit (t : TextFeatures) (p : String) :
    0 ≤ calculate_structure_adherence t p ∧ calculate_structure_adherence t p ≤ 1 := by
  simp only [calculate_structure_adherence]
  cases hind : dictGet structure_indicators p with
  | none => split_ifs <;> norm_num
  | some indicators =>
    have hlen : indicators.length = 2 := by
      have hmem := dictGet_mem hind
      simp only [structure_indicators, List.mem_cons, List.not_mem_nil, or_false,
        Prod.mk.injEq] at hmem
      rcases hmem with ⟨-, rfl⟩ | ⟨-, rfl⟩ | ⟨-, rfl⟩ <;> rfl
    obtain ⟨hd0, hd1⟩ := count_div_unit t.matchesCI indicators (by
      intro hnil
      rw [hnil] at hlen
      simp at hlen)
    apply round2_unit <;> (split_ifs <;> linarith)

theorem alignment_unit (context : EvalContext) :
    0 ≤ calculate_alignment_score context ∧ calculate_alignment_score context ≤ 1 := by
  simp only [calculate_alignment_score]
  apply round2_unit
  · split_ifs <;> norm_num [le_min_iff]
  · split_ifs <;> exact min_le_right _ _

theorem completion_unit (t : TextFeatures) :
    0 ≤ calculate_completion_score t ∧ calculate_completion_score t ≤ 1 := by
  simp only [calculate_completion_score, List.sum_cons, List.sum_nil,
    List.length_cons, List.length_nil]
  apply round2_unit <;> (split_ifs <;> norm_num)

theorem block_relevance_unit (t : TextFeatures) (context : EvalContext) :
    0 ≤ calculate_block_relevance t context ∧ calculate_block_relevance t context ≤ 1 := by
  simp only [calculate_block_relevance]
  obtain ⟨hd0, hd1⟩ := count_div_unit t.lowerContains block_terms (by simp [block_terms])
  apply round2_unit
  · split_ifs
    · have hmin : (0:ℚ) ≤ min ((countMatches t.lowerContains block_terms : ℚ) /
          (block_terms.length : ℚ) + 3/10) 1 := le_min (by linarith) (by norm_num)
      exact le_min (by linarith) (by norm_num)
    · exact le_min (by linarith) (by norm_num)
  · split_ifs
    · exact min_le_right _ _
    · exact min_le_right _ _

theorem pattern_effectiveness_unit (t : TextFeatures) (p : String) :
    0 ≤ calculate_pattern_effectiveness t p ∧ calculate_pattern_effectiveness t p ≤ 1 := by
  simp only [calculate_pattern_effectiveness]
  cases hind : dictGet pattern_purposes p with
  | none => norm_num
  | some indicators =>
    have hlen : indicators.length = 3 := by
      have hmem := dictGet_mem hind
      simp only [pattern_purposes, List.mem_cons, List.not_mem_nil, or_false,
        Prod.mk.injEq] at hmem
      rcases hmem with ⟨-, rfl⟩ | ⟨-, rfl⟩ | ⟨-, rfl⟩ <;> rfl
    obtain ⟨hd0, hd1⟩ := count_div_unit t.matchesCI indicators (by
      intro hnil
      rw [hnil] at hlen
      simp at hlen)
    exact round2_unit hd0 hd1

theorem innovation_unit (t : TextFeatures) (context : EvalContext) :
    0 ≤ calculate_innovation_score t context ∧ calculate_innovation_score t context ≤ 1 := by
  simp only [calculate_innovation_score]
  obtain ⟨hd0, hd1⟩ := count_div_unit t.matchesCI innovation_indicators
    (by simp [innovation_indicators])
  apply round2_unit
  · split_ifs
    · exact le_min (by linarith) (by norm_num)
    · linarith
  · split_ifs
    · exact min_le_right _ _
    · linarith

/-- C8 (amended): the mapping `evaluate_output` returns always contains
`overall`, bound to a number in [0, 1], and every entry other than the
nested `breakdown` object is a number in [0, 1]. -/
theorem evaluate_output_spec (t : TextFeatures) (pattern_name : String)
    (context : EvalContext) :
    (∃ q, dictGet (evaluate_output t pattern_name context) "overall" =
        some (JsonVal.num q) ∧ 0 ≤ q ∧ q ≤ 1) ∧
    (∀ kv ∈ evaluate_output t pattern_name context, kv.1 ≠ "breakdown" →
      ∃ q, kv.2 = JsonVal.num q ∧ 0 ≤ q ∧ q ≤ 1) := by
  obtain ⟨c0, c1⟩ := clarity_unit t
  obtain ⟨s0, s1⟩ := structure_adherence_unit t pattern_name
  obtain ⟨a0, a1⟩ := alignment_unit context
  obtain ⟨p0, p1⟩ := completion_unit t
  obtain ⟨b0, b1⟩ := block_relevance_unit t context
  obtain ⟨e0, e1⟩ := pattern_effectiveness_unit t pattern_name
  obtain ⟨i0, i1⟩ := innovation_unit t context
  have hov := round2_unit
    (q := calculate_clarity_score t * (15/100) +
      calculate_structure_adherence t pattern_name * (15/100) +
      calculate_alignment_score context * (15/100) +
      calculate_completion_score t * (15/100) +
      calculate_block_relevance t context * (15/100) +
      calculate_pattern_effectiveness t pattern_name * (15/100) +
      calculate_innovation_score t context * (10/100))
    (by linarith) (by linarith)
  constructor
  · exact ⟨_, rfl, hov.1, hov.2⟩
  · intro kv hkv hne
    simp only [evaluate_output, List.mem_cons, List.not_mem_nil, or_false] at hkv
    rcases hkv with rfl | rfl | rfl | rfl | rfl | rfl | rfl | rfl | rfl
    · exact ⟨_, rfl, c0, c1⟩
    · exact ⟨_, rfl, s0, s1⟩
    · exact ⟨_, rfl, a0, a1⟩
    · exact ⟨_, rfl, p0, p1⟩
    · exact ⟨_, rfl, b0, b1⟩
    · exact ⟨_, rfl, e0, e1⟩
    · exact ⟨_, rfl, i0, i1⟩
    · exact ⟨_, rfl, hov.1, hov.2⟩
    · exact absurd rfl hne

/-- A text on which every regex and substring inspection comes out false. -/
def emptyFeatures : TextFeatures :=
  { strip_len_gt20 := false, has_clear_sections := false,
    has_proper_capitalization := false, has_proper_formatting := false,
    strip_endswith_period := false, has_complete_sentences := false,
    has_proper_structure := false, containsSub := fun _ => false,
    lowerContains := fun _ => false, matchesCI := fun _ => false }

/-- The empty evaluation context (`context = {}`). -/
def emptyContext : EvalContext :=
  { tags_has_goal := false, domain_block := false, has_industry := false,
    innovation_required := false }

/-- C8, counterexample to the frozen claim: not every value of the returned
mapping is a float in [0, 1] — the `breakdown` entry is a nested object. -/
theorem evaluate_output_values_cex :
    ((evaluate_output emptyFeatures "p" emptyContext).all
        (fun kv => isUnitNum kv.2)) = false := by
  simp [evaluate_output, isUnitNum, get_score_breakdown,
    List.all_cons, List.all_nil]

/-- C8, witness: on a concrete input, `overall` is present with a value in
[0, 1], and the `clarity_score` entry (one not named `breakdown`) is a
number in [0, 1]. -/
theorem evaluate_output_spec_witness :
    (∃ q, dictGet (evaluate_output emptyFeatures "p" emptyContext) "overall" =
        some (JsonVal.num q) ∧ 0 ≤ q ∧ q ≤ 1) ∧
    (∃ q, JsonVal.num (calculate_clarity_score emptyFeatures) = JsonVal.num q ∧
      0 ≤ q ∧ q ≤ 1) := by
  refine ⟨(evaluate_output_spec emptyFeatures "p" emptyContext).1, ?_⟩
  exact (evaluate_output_spec emptyFeatures "p" emptyContext).2
    ("clarity_score", JsonVal.num (calculate_clarity_score emptyFeatures))
    (by simp [evaluate_output]) (by simp)

end Fusion
